import Mathlib

/-!
# Lead verifier: validate.Email and the consume / validate / route loop

A shallow embedding of `internal/validate/validate.go` and of the `for` loop of
`main.go`, followed by the properties proved about them.

Conventions of the embedding.

* A Go `string` that is matched against the pattern is a Lean `String`: the
  `regexp` package walks its input rune by rune, and the only string handed to
  `validate.Email` comes out of `json.Unmarshal`, which produces valid UTF-8.
* A Go `[]byte` is a `List UInt8`.  `string(h.Value)` copies the bytes of
  `h.Value`, so the correlation id is kept as that byte sequence.
* `encoding/json`, `kafka-go` and `prometheus` are libraries outside the
  repository.  Their answers are inputs of the model: the decoder is a function
  parameter that gives the stored map and the returned error, the outcome of `ReadMessage` and of each `WriteMessages` is given by
  the environment of an iteration, and a counter is the number of `Inc()` calls
  made on it.
-/

namespace Verifier

/-! ## The `regexp` fragment used by `validate.Email` -/

/-- Syntax tree of the regular expressions that occur in the pattern of
`validate.Email`, closed under what derivatives need (`empty`, `eps`, `alt`). -/
inductive Regexp where
  | empty : Regexp
  | eps : Regexp
  | lit (c : Char) : Regexp
  | cls (ranges : List (Char × Char)) : Regexp
  | alt (a b : Regexp) : Regexp
  | cat (a b : Regexp) : Regexp
  | star (a : Regexp) : Regexp

namespace Regexp

/-- Membership of a rune in a bracket expression given as inclusive ranges
`lo-hi`; a single character `c` of the bracket is the range `c-c`. -/
def inClass (ranges : List (Char × Char)) (c : Char) : Bool :=
  ranges.any fun r => decide (r.1 ≤ c) && decide (c ≤ r.2)

/-- The operator `x+`: one `x` followed by `x*`. -/
def plus (a : Regexp) : Regexp := cat a (star a)

/-- The operator `x{n,}`: `n` copies of `x` followed by `x*`. -/
def atLeast : Nat → Regexp → Regexp
  | 0, a => star a
  | n + 1, a => cat a (atLeast n a)

/-- Whether the expression accepts the empty text. -/
def nullable : Regexp → Bool
  | empty => false
  | eps => true
  | lit _ => false
  | cls _ => false
  | alt a b => nullable a || nullable b
  | cat a b => nullable a && nullable b
  | star _ => true

/-- Brzozowski derivative: the expression for what may follow the rune `c`. -/
def deriv : Regexp → Char → Regexp
  | empty, _ => empty
  | eps, _ => empty
  | lit a, c => if a = c then eps else empty
  | cls rs, c => if inClass rs c then eps else empty
  | alt a b, c => alt (deriv a c) (deriv b c)
  | cat a b, c =>
    if nullable a then alt (cat (deriv a c) b) (deriv b c) else cat (deriv a c) b
  | star a, c => cat (deriv a c) (star a)

/-- Whole-text match: consume the runes one by one, then test for the empty
text. -/
def fullMatch (r : Regexp) (text : List Char) : Bool :=
  nullable (text.foldl deriv r)

end Regexp

/-! ## internal/validate/validate.go -/

/-- The bracket `[a-zA-Z0-9._%%+-]` of the local part (the `%` is written twice
in the source). -/
def localClass : List (Char × Char) :=
  [('a', 'z'), ('A', 'Z'), ('0', '9'), ('.', '.'), ('_', '_'), ('%', '%'), ('%', '%'),
   ('+', '+'), ('-', '-')]

/-- The bracket `[a-zA-Z0-9.-]` of the domain. -/
def domainClass : List (Char × Char) :=
  [('a', 'z'), ('A', 'Z'), ('0', '9'), ('.', '.'), ('-', '-')]

/-- The bracket `[a-zA-Z]` of the top-level label. -/
def tldClass : List (Char × Char) :=
  [('a', 'z'), ('A', 'Z')]

/-- A compiled pattern of the shape used here: whether it starts with `^`,
the expression between the anchors, and whether it ends with `$`. -/
structure Pattern where
  beginText : Bool
  body : Regexp
  endText : Bool

/-- The pattern
`^[a-zA-Z0-9._%%+-]+@[a-zA-Z0-9.-]+\.[a-zA-Z]{2,}$`
that `regexp.MustCompile` is given. -/
def emailPattern : Pattern :=
  { beginText := true
    body :=
      .cat (.plus (.cls localClass))
        (.cat (.lit '@')
          (.cat (.plus (.cls domainClass))
            (.cat (.lit '.') (.atLeast 2 (.cls tldClass)))))
    endText := true }

/-- `re.MatchString(s)`: whether `s` contains a match, that is a stretch of
`n` runes from position `i` that the body accepts, with `i = 0` when the
pattern starts with `^` and the stretch reaching the end of `s` when it ends
with `$` (no flags, so `$` is the end of the text). -/
def MatchString (re : Pattern) (s : String) : Bool :=
  (List.range (s.data.length + 1)).any fun i =>
    (List.range (s.data.length - i + 1)).any fun n =>
      (!re.beginText || i == 0) && (!re.endText || i + n == s.data.length) &&
        re.body.fullMatch ((s.data.drop i).take n)

/-- `validate.Email`. -/
def Email (email : String) : Bool :=
  MatchString emailPattern email

namespace Regexp

/-- Declarative meaning of an expression: the texts it accepts. -/
inductive Accepts : Regexp → List Char → Prop
  | eps : Accepts eps []
  | lit (c : Char) : Accepts (lit c) [c]
  | cls (rs : List (Char × Char)) (c : Char) : inClass rs c = true → Accepts (cls rs) [c]
  | altL {a b : Regexp} {s : List Char} : Accepts a s → Accepts (alt a b) s
  | altR {a b : Regexp} {s : List Char} : Accepts b s → Accepts (alt a b) s
  | cat {a b : Regexp} {s t : List Char} :
      Accepts a s → Accepts b t → Accepts (cat a b) (s ++ t)
  | starNil {a : Regexp} : Accepts (star a) []
  | starCons {a : Regexp} {s t : List Char} :
      Accepts a s → Accepts (star a) t → Accepts (star a) (s ++ t)

end Regexp

/-! ## The character sets named by the specification -/

/-- A letter: `a`-`z` or `A`-`Z`. -/
def isLetter (c : Char) : Prop := ('a' ≤ c ∧ c ≤ 'z') ∨ ('A' ≤ c ∧ c ≤ 'Z')

/-- A digit: `0`-`9`. -/
def isDigit (c : Char) : Prop := '0' ≤ c ∧ c ≤ '9'

/-- A character of the local part: a letter, a digit, or one of `. _ % + -`. -/
def isLocalChar (c : Char) : Prop :=
  isLetter c ∨ isDigit c ∨ c = '.' ∨ c = '_' ∨ c = '%' ∨ c = '+' ∨ c = '-'

/-- A character of a domain label: a letter, a digit, or `-`. -/
def isLabelChar (c : Char) : Prop := isLetter c ∨ isDigit c ∨ c = '-'

/-- A character the domain bracket of the pattern admits: a label character
or `.`. -/
def isDomainChar (c : Char) : Prop := isLabelChar c ∨ c = '.'

instance (c : Char) : Decidable (isLetter c) := by unfold isLetter; infer_instance
instance (c : Char) : Decidable (isDigit c) := by unfold isDigit; infer_instance
instance (c : Char) : Decidable (isLocalChar c) := by unfold isLocalChar; infer_instance
instance (c : Char) : Decidable (isLabelChar c) := by unfold isLabelChar; infer_instance
instance (c : Char) : Decidable (isDomainChar c) := by unfold isDomainChar; infer_instance

/-- The texts the pattern of `validate.Email` accepts, read off the pattern:
one or more local-part characters, `@`, one or more domain characters (the
bracket of the domain admits `.`), `.`, and two or more letters. -/
def AcceptedShape (text : List Char) : Prop :=
  ∃ l d t : List Char, text = l ++ '@' :: (d ++ '.' :: t) ∧
    (l ≠ [] ∧ ∀ c ∈ l, isLocalChar c) ∧
    (d ≠ [] ∧ ∀ c ∈ d, isDomainChar c) ∧
    (2 ≤ t.length ∧ ∀ c ∈ t, isLetter c)

/-- The pattern in the words of the specification: `local-part @ labels . tld`
with one or more dot-separated labels, each of one or more label characters. -/
def SpecPattern (text : List Char) : Prop :=
  ∃ (l : List Char) (labels : List (List Char)) (tld : List Char),
    text = l ++ '@' :: (List.intercalate ['.'] labels ++ '.' :: tld) ∧
    (l ≠ [] ∧ ∀ c ∈ l, isLocalChar c) ∧
    (labels ≠ [] ∧ ∀ lab ∈ labels, lab ≠ [] ∧ ∀ c ∈ lab, isLabelChar c) ∧
    (2 ≤ tld.length ∧ ∀ c ∈ tld, isLetter c)

/-! ## main.go: the data the loop handles -/

/-- A Go `error` value, kept as its message. -/
abbrev Error := String

/-- The type `kafka.Header`. -/
structure Header where
  Key : String
  Value : List UInt8
deriving DecidableEq

/-- The type `kafka.Message`: payload, headers and the positional data the
broker assigns. -/
structure Message where
  Topic : String
  Partition : Int
  Offset : Int
  HighWaterMark : Int
  Key : List UInt8
  Value : List UInt8
  Headers : List Header
deriving DecidableEq

/-- A value of type `interface{}` as `json.Unmarshal` stores it: `nil`, `bool`,
`float64` (given by its IEEE-754 bits), `string`, `[]interface{}` or
`map[string]interface{}`. -/
inductive Iface where
  | null : Iface
  | bool (b : Bool) : Iface
  | float64 (bits : Nat) : Iface
  | str (s : String) : Iface
  | slice (items : List Iface) : Iface
  | map (entries : List (String × Iface)) : Iface

/-- The variable `lead` of type `map[string]interface{}`.  Reading a key of
the `nil` map gives the same answer as reading it from the empty map, so both
are the empty list. -/
abbrev Lead := List (String × Iface)

/-- The answer of `json.Unmarshal(data, &lead)` on a `nil` map: the map found
in `lead` when the call returns (empty when nothing was stored), and the error
returned, if any.  The two are independent: the decoder reports some errors
only after it has stored the entries it could decode. -/
structure Decoded where
  stored : Lead
  err : Option Error

/-- The function `json.Unmarshal` as the loop uses it, from the payload to
its answer. -/
abbrev Unmarshal := List UInt8 → Decoded

/-- The two writers of `main`. -/
inductive Dest where
  | verified : Dest
  | dlq : Dest
deriving DecidableEq

/-- One call of `log.Printf`, kept as its format and arguments. -/
inductive LogLine where
  | readError (err : Error) : LogLine
  | writeError (err : Error) : LogLine
  | traceVerified (lead : Lead) (correlationId : List UInt8) : LogLine
  | traceInvalid (lead : Lead) (correlationId : List UInt8) : LogLine
  | dlqError (err : Error) : LogLine

/-- What the loop acts on: the two counters (number of `Inc()` calls), the
messages each writer has accepted, every `WriteMessages` call made, and the
log. -/
structure State where
  verifiedCounter : Nat
  invalidCounter : Nat
  verifiedTopic : List Message
  dlqTopic : List Message
  writes : List (Dest × Message)
  log : List LogLine

/-- What the outside answers during one iteration: the result of
`reader.ReadMessage`, and the error (if any) that `writer.WriteMessages` and
`dlqWriter.WriteMessages` return when called. -/
structure Env where
  recv : Except Error Message
  writeErr : Option Error
  dlqErr : Option Error

/-- How an iteration ends: the loop goes on, or a panic unwinds `main`. -/
inductive Outcome where
  | running (st : State) : Outcome
  | panicked (st : State) : Outcome

/-- The state an outcome carries. -/
def Outcome.state : Outcome → State
  | .running st => st
  | .panicked st => st

/-- Whether the outcome is a panic. -/
def Outcome.isPanic : Outcome → Bool
  | .running _ => false
  | .panicked _ => true

/-! ## main.go: one iteration of the `for` loop -/

/-- Lines 58-59: `var lead map[string]interface{}` followed by
`json.Unmarshal(msg.Value, &lead)`.  The returned error is not assigned, so
`lead` is whatever the call has stored, error or not. -/
def decodeLead (unmarshal : Unmarshal) (payload : List UInt8) : Lead :=
  (unmarshal payload).stored

/-- Lines 60-66: the correlation id is the value of the header at index 0
when there is one and its key is `correlationId`, and the empty string
otherwise. -/
def correlationIdOf (headers : List Header) : List UInt8 :=
  match headers with
  | [] => []
  | h :: _ => if h.Key = "correlationId" then h.Value else []

/-- The type assertion `v.(string)`: the string held by the interface value,
or `none` for the panic it raises on anything else, the `nil` interface of a
missing key included. -/
def assertString : Option Iface → Option String
  | some (.str s) => some s
  | _ => none

/-- The argument of `validate.Email` on line 67, `lead["email"].(string)`. -/
def leadEmail (unmarshal : Unmarshal) (msg : Message) : Option String :=
  assertString ((decodeLead unmarshal msg.Value).lookup "email")

/-- Lines 52-82: one pass through the body of the `for` loop. -/
def iteration (unmarshal : Unmarshal) (st : State) (env : Env) : Outcome :=
  match env.recv with
  | .error err => .running { st with log := st.log ++ [.readError err] }
  | .ok msg =>
    let lead := decodeLead unmarshal msg.Value
    let correlationId := correlationIdOf msg.Headers
    match assertString (lead.lookup "email") with
    | none => .panicked st
    | some email =>
      if Email email then
        match env.writeErr with
        | some err =>
          .running { st with
            writes := st.writes ++ [(.verified, msg)]
            log := st.log ++ [.writeError err] }
        | none =>
          .running { st with
            writes := st.writes ++ [(.verified, msg)]
            verifiedTopic := st.verifiedTopic ++ [msg]
            verifiedCounter := st.verifiedCounter + 1
            log := st.log ++ [.traceVerified lead correlationId] }
      else
        match env.dlqErr with
        | some err =>
          .running { st with
            invalidCounter := st.invalidCounter + 1
            writes := st.writes ++ [(.dlq, msg)]
            log := st.log ++ [.traceInvalid lead correlationId, .dlqError err] }
        | none =>
          .running { st with
            invalidCounter := st.invalidCounter + 1
            writes := st.writes ++ [(.dlq, msg)]
            dlqTopic := st.dlqTopic ++ [msg]
            log := st.log ++ [.traceInvalid lead correlationId] }

/-- The `for` loop over the answers of the outside for its first iterations;
a panic ends it. -/
def run (unmarshal : Unmarshal) : State → List Env → Outcome
  | st, [] => .running st
  | st, env :: rest =>
    match iteration unmarshal st env with
    | .running st1 => run unmarshal st1 rest
    | .panicked st1 => .panicked st1

/-! ## Vocabulary of the statements -/

/-- The state at process start. -/
def State.init : State :=
  { verifiedCounter := 0, invalidCounter := 0, verifiedTopic := [], dlqTopic := [],
    writes := [], log := [] }

/-- The state `st` after the changes recorded in `d`: counters added, lists
appended. -/
def State.extend (st d : State) : State :=
  { verifiedCounter := st.verifiedCounter + d.verifiedCounter
    invalidCounter := st.invalidCounter + d.invalidCounter
    verifiedTopic := st.verifiedTopic ++ d.verifiedTopic
    dlqTopic := st.dlqTopic ++ d.dlqTopic
    writes := st.writes ++ d.writes
    log := st.log ++ d.log }

/-- Whether the record is one the loop sends to the verified writer. -/
def routesVerified (unmarshal : Unmarshal) (msg : Message) : Bool :=
  match leadEmail unmarshal msg with
  | some email => Email email
  | none => false

/-- The environment of an iteration that receives `msg` and in which every
send succeeds. -/
def Env.allOk (msg : Message) : Env :=
  { recv := .ok msg, writeErr := none, dlqErr := none }

/-- The correlation id a trace line carries. -/
def LogLine.correlationId? : LogLine → Option (List UInt8)
  | .traceVerified _ cid => some cid
  | .traceInvalid _ cid => some cid
  | _ => none

/-- The bytes of an ASCII text. -/
def asciiBytes (s : String) : List UInt8 :=
  s.data.map fun c => c.toNat.toUInt8

/-- A record as the reader hands it over, with the given payload and headers. -/
def Message.ofPayload (payload : String) (headers : List Header) : Message :=
  { Topic := "lead.raw", Partition := 0, Offset := 0, HighWaterMark := 0, Key := [],
    Value := asciiBytes payload, Headers := headers }

/-- The answers of `json.Unmarshal` on the payloads used as concrete inputs
below.  An object is stored entry by entry; the number `1e999` does not fit a
`float64`, so the decoder stores `nil` for it, goes on, and returns an error
once the object is complete.  Text that is not JSON stores nothing. -/
def sampleUnmarshal : Unmarshal := fun payload =>
  if payload = asciiBytes "\x7b\"email\":\"a@b.com\"\x7d" then
    { stored := [("email", .str "a@b.com")], err := none }
  else if payload = asciiBytes "\x7b\"email\":\"not-an-email\"\x7d" then
    { stored := [("email", .str "not-an-email")], err := none }
  else if payload = asciiBytes "\x7b\"email\":\"x@y.co\"\x7d" then
    { stored := [("email", .str "x@y.co")], err := none }
  else if payload = asciiBytes "\x7b\"email\":5\x7d" then
    { stored := [("email", .float64 0x4014000000000000)], err := none }
  else if payload = asciiBytes "\x7b\x7d" then
    { stored := [], err := none }
  else if payload = asciiBytes "\x7b\"email\":\"a@b.com\",\"n\":1e999\x7d" then
    { stored := [("email", .str "a@b.com"), ("n", .null)]
      err := some "json: cannot unmarshal number 1e999 into Go value of type float64" }
  else
    { stored := [], err := some "invalid character" }

/-! ## The matcher agrees with the declarative meaning of an expression -/

namespace Regexp

theorem not_accepts_empty (u : List Char) : ¬ Accepts empty u := by
  intro h; cases h

theorem accepts_eps_iff (u : List Char) : Accepts eps u ↔ u = [] := by
  constructor
  · intro h; cases h; rfl
  · rintro rfl; exact Accepts.eps

theorem accepts_lit_iff (c : Char) (u : List Char) : Accepts (lit c) u ↔ u = [c] := by
  constructor
  · intro h; cases h; rfl
  · rintro rfl; exact Accepts.lit c

theorem accepts_cls_iff (rs : List (Char × Char)) (u : List Char) :
    Accepts (cls rs) u ↔ ∃ c, u = [c] ∧ inClass rs c = true := by
  constructor
  · intro h; cases h with
    | cls _ c hc => exact ⟨c, rfl, hc⟩
  · rintro ⟨c, rfl, hc⟩; exact Accepts.cls rs c hc

theorem accepts_alt_iff (a b : Regexp) (u : List Char) :
    Accepts (alt a b) u ↔ Accepts a u ∨ Accepts b u := by
  constructor
  · intro h; cases h with
    | altL h => exact Or.inl h
    | altR h => exact Or.inr h
  · rintro (h | h)
    · exact Accepts.altL h
    · exact Accepts.altR h

theorem accepts_cat_iff (a b : Regexp) (u : List Char) :
    Accepts (cat a b) u ↔ ∃ s t, u = s ++ t ∧ Accepts a s ∧ Accepts b t := by
  constructor
  · intro h; cases h with
    | cat h1 h2 => exact ⟨_, _, rfl, h1, h2⟩
  · rintro ⟨s, t, rfl, h1, h2⟩; exact Accepts.cat h1 h2

/-- A non-empty text accepted by `star a` starts with a non-empty text accepted
by `a`. -/
theorem accepts_star_cons {a : Regexp} {r : Regexp} {u : List Char} (h : Accepts r u) :
    ∀ c v, r = star a → u = c :: v →
      ∃ s t, v = s ++ t ∧ Accepts a (c :: s) ∧ Accepts (star a) t := by
  induction h with
  | eps => intro c v hr; cases hr
  | lit => intro c v hr; cases hr
  | cls => intro c v hr; cases hr
  | altL => intro c v hr; cases hr
  | altR => intro c v hr; cases hr
  | cat => intro c v hr; cases hr
  | starNil => intro c v _ hu; cases hu
  | @starCons a0 s t h1 h2 _ ih2 =>
    intro c v hr hu
    cases hr
    cases s with
    | nil => exact ih2 c v rfl (by simpa using hu)
    | cons d s =>
      simp only [List.cons_append, List.cons.injEq] at hu
      obtain ⟨rfl, rfl⟩ := hu
      exact ⟨s, t, rfl, h1, h2⟩

theorem nullable_iff (r : Regexp) : nullable r = true ↔ Accepts r [] := by
  induction r with
  | empty => simp [nullable, not_accepts_empty]
  | eps => simp [nullable, accepts_eps_iff]
  | lit c => simp [nullable, accepts_lit_iff]
  | cls rs => simp [nullable, accepts_cls_iff]
  | alt a b iha ihb => simp [nullable, accepts_alt_iff, iha, ihb]
  | cat a b iha ihb =>
    simp only [nullable, Bool.and_eq_true, iha, ihb, accepts_cat_iff]
    constructor
    · rintro ⟨h1, h2⟩; exact ⟨[], [], rfl, h1, h2⟩
    · rintro ⟨s, t, hst, h1, h2⟩
      have hs : s = [] := by
        cases s with
        | nil => rfl
        | cons => simp at hst
      have ht : t = [] := by
        cases t with
        | nil => rfl
        | cons => simp at hst
      subst hs; subst ht; exact ⟨h1, h2⟩
  | star a _ => simp only [nullable, true_iff]; exact Accepts.starNil

theorem deriv_iff (r : Regexp) (c : Char) : ∀ v, Accepts (deriv r c) v ↔ Accepts r (c :: v) := by
  induction r with
  | empty => intro v; simp [deriv, not_accepts_empty]
  | eps => intro v; simp [deriv, not_accepts_empty, accepts_eps_iff]
  | lit a =>
    intro v
    by_cases h : a = c
    · simp [deriv, h, accepts_eps_iff, accepts_lit_iff]
    · have h2 : ¬ c = a := fun e => h e.symm
      simp [deriv, h, h2, not_accepts_empty, accepts_lit_iff]
  | cls rs =>
    intro v
    by_cases h : inClass rs c = true
    · simp only [deriv, h, if_true, accepts_eps_iff, accepts_cls_iff]
      constructor
      · rintro rfl; exact ⟨c, rfl, h⟩
      · rintro ⟨d, hd, _⟩
        simp only [List.cons.injEq] at hd
        exact hd.2
    · have h3 : inClass rs c = false := by simpa using h
      simp only [deriv, h3, accepts_cls_iff, not_accepts_empty, false_iff, Bool.false_eq_true,
        if_false]
      rintro ⟨d, hd, hc⟩
      simp only [List.cons.injEq] at hd
      obtain ⟨rfl, _⟩ := hd
      exact h hc
  | alt a b iha ihb => intro v; simp [deriv, accepts_alt_iff, iha, ihb]
  | cat a b iha ihb =>
    intro v
    have key : Accepts (cat a b) (c :: v) ↔
        (∃ s t, v = s ++ t ∧ Accepts a (c :: s) ∧ Accepts b t) ∨
          (Accepts a [] ∧ Accepts b (c :: v)) := by
      rw [accepts_cat_iff]
      constructor
      · rintro ⟨s, t, hst, h1, h2⟩
        cases s with
        | nil => right; simp at hst; subst hst; exact ⟨h1, h2⟩
        | cons d s =>
          simp only [List.cons_append, List.cons.injEq] at hst
          obtain ⟨rfl, rfl⟩ := hst
          exact Or.inl ⟨s, t, rfl, h1, h2⟩
      · rintro (⟨s, t, rfl, h1, h2⟩ | ⟨h1, h2⟩)
        · exact ⟨c :: s, t, rfl, h1, h2⟩
        · exact ⟨[], c :: v, rfl, h1, h2⟩
    rw [key]
    by_cases hn : nullable a = true
    · have hn2 := (nullable_iff a).1 hn
      simp [deriv, hn, accepts_alt_iff, accepts_cat_iff, iha, ihb, hn2]
    · have hn2 : ¬ Accepts a [] := fun h => hn ((nullable_iff a).2 h)
      simp [deriv, hn, accepts_cat_iff, iha, hn2]
  | star a iha =>
    intro v
    simp only [deriv, accepts_cat_iff, iha]
    constructor
    · rintro ⟨s, t, rfl, h1, h2⟩
      exact Accepts.starCons (s := c :: s) h1 h2
    · intro h
      exact accepts_star_cons h c v rfl rfl

theorem fullMatch_iff (r : Regexp) (text : List Char) :
    fullMatch r text = true ↔ Accepts r text := by
  induction text generalizing r with
  | nil => simpa [fullMatch] using nullable_iff r
  | cons c v ih =>
    have := ih (deriv r c)
    simp only [fullMatch, List.foldl_cons] at this ⊢
    rw [this, deriv_iff]

theorem accepts_star_cls_forall {rs : List (Char × Char)} {r : Regexp} {u : List Char}
    (h : Accepts r u) : r = star (cls rs) → ∀ c ∈ u, inClass rs c = true := by
  induction h with
  | eps => intro hr; cases hr
  | lit => intro hr; cases hr
  | cls => intro hr; cases hr
  | altL => intro hr; cases hr
  | altR => intro hr; cases hr
  | cat => intro hr; cases hr
  | starNil => intro _ c hc; cases hc
  | @starCons a0 s t h1 _ _ ih2 =>
    intro hr c hc
    cases hr
    obtain ⟨d, rfl, hd⟩ := (accepts_cls_iff rs s).1 h1
    rcases List.mem_append.1 hc with hc | hc
    · rw [List.mem_singleton.1 hc]; exact hd
    · exact ih2 rfl c hc

theorem accepts_star_cls_iff (rs : List (Char × Char)) (u : List Char) :
    Accepts (star (cls rs)) u ↔ ∀ c ∈ u, inClass rs c = true := by
  constructor
  · intro h; exact accepts_star_cls_forall h rfl
  · intro h
    induction u with
    | nil => exact Accepts.starNil
    | cons c v ih =>
      have h1 : Accepts (cls rs) [c] := Accepts.cls rs c (h c (List.mem_cons_self c v))
      have h2 : Accepts (star (cls rs)) v := ih fun d hd => h d (List.mem_cons_of_mem c hd)
      exact Accepts.starCons h1 h2

theorem accepts_atLeast_cls_iff (rs : List (Char × Char)) (n : Nat) :
    ∀ u, Accepts (atLeast n (cls rs)) u ↔ n ≤ u.length ∧ ∀ c ∈ u, inClass rs c = true := by
  induction n with
  | zero => intro u; simp [atLeast, accepts_star_cls_iff]
  | succ n ih =>
    intro u
    simp only [atLeast, accepts_cat_iff, accepts_cls_iff, ih]
    constructor
    · rintro ⟨s, t, rfl, ⟨c, rfl, hc⟩, hn, ht⟩
      refine ⟨by simp; omega, ?_⟩
      intro d hd
      rcases List.mem_append.1 hd with hd | hd
      · rw [List.mem_singleton.1 hd]; exact hc
      · exact ht d hd
    · rintro ⟨hn, hu⟩
      cases u with
      | nil => simp at hn
      | cons c v =>
        refine ⟨[c], v, rfl, ⟨c, rfl, hu c (List.mem_cons_self c v)⟩, ?_, ?_⟩
        · simpa using hn
        · exact fun d hd => hu d (List.mem_cons_of_mem c hd)

theorem accepts_plus_cls_iff (rs : List (Char × Char)) (u : List Char) :
    Accepts (plus (cls rs)) u ↔ u ≠ [] ∧ ∀ c ∈ u, inClass rs c = true := by
  have h := accepts_atLeast_cls_iff rs 1 u
  have e : atLeast 1 (cls rs) = plus (cls rs) := rfl
  rw [e] at h
  rw [h]
  constructor
  · rintro ⟨h1, h2⟩
    refine ⟨?_, h2⟩
    rintro rfl
    simp at h1
  · rintro ⟨h1, h2⟩
    refine ⟨?_, h2⟩
    cases u with
    | nil => exact absurd rfl h1
    | cons c v => simp

end Regexp

/-! ## Lemmas on the accepted texts and on one iteration -/

theorem single_range_iff (c d : Char) : (d ≤ c ∧ c ≤ d) ↔ c = d :=
  ⟨fun h => le_antisymm h.2 h.1, fun h => h ▸ ⟨le_refl _, le_refl _⟩⟩

theorem inClass_tldClass (c : Char) : Regexp.inClass tldClass c = true ↔ isLetter c := by
  simp [Regexp.inClass, tldClass, isLetter]

theorem inClass_localClass (c : Char) : Regexp.inClass localClass c = true ↔ isLocalChar c := by
  simp only [Regexp.inClass, localClass, isLocalChar, isLetter, isDigit, List.any_cons,
    List.any_nil, Bool.or_eq_true, Bool.and_eq_true, decide_eq_true_eq, Bool.or_false,
    single_range_iff, or_assoc, or_self_left]

theorem inClass_domainClass (c : Char) :
    Regexp.inClass domainClass c = true ↔ isDomainChar c := by
  simp only [Regexp.inClass, domainClass, isDomainChar, isLabelChar, isLetter, isDigit,
    List.any_cons, List.any_nil, Bool.or_eq_true, Bool.and_eq_true, decide_eq_true_eq,
    Bool.or_false, single_range_iff, or_assoc]
  constructor
  · rintro (h | h | h | h | h)
    · exact Or.inl h
    · exact Or.inr (Or.inl h)
    · exact Or.inr (Or.inr (Or.inl h))
    · exact Or.inr (Or.inr (Or.inr (Or.inr h)))
    · exact Or.inr (Or.inr (Or.inr (Or.inl h)))
  · rintro (h | h | h | h | h)
    · exact Or.inl h
    · exact Or.inr (Or.inl h)
    · exact Or.inr (Or.inr (Or.inl h))
    · exact Or.inr (Or.inr (Or.inr (Or.inr h)))
    · exact Or.inr (Or.inr (Or.inr (Or.inl h)))

/-- With both anchors a match has to cover the whole text. -/
theorem matchString_anchored (body : Regexp) (s : String) :
    MatchString ⟨true, body, true⟩ s = body.fullMatch s.data := by
  rw [Bool.eq_iff_iff]
  simp only [MatchString, List.any_eq_true, List.mem_range, Bool.and_eq_true, Bool.or_eq_true,
    Bool.not_true, Bool.false_eq_true, false_or, beq_iff_eq]
  constructor
  · rintro ⟨i, _, n, _, ⟨hi, hn⟩, hm⟩
    subst hi
    simp only [Nat.zero_add] at hn
    subst hn
    rw [List.drop_zero, List.take_length] at hm
    exact hm
  · intro hm
    refine ⟨0, by omega, s.data.length, by omega, ⟨rfl, by omega⟩, ?_⟩
    rw [List.drop_zero, List.take_length]
    exact hm

theorem email_iff_shape (s : String) : Email s = true ↔ AcceptedShape s.data := by
  unfold Email emailPattern AcceptedShape
  rw [matchString_anchored, Regexp.fullMatch_iff]
  simp only [Regexp.accepts_cat_iff, Regexp.accepts_lit_iff, Regexp.accepts_plus_cls_iff,
    Regexp.accepts_atLeast_cls_iff, inClass_localClass, inClass_domainClass, inClass_tldClass]
  constructor
  · rintro ⟨l, r1, h0, hl, a, r2, rfl, rfl, d, r3, rfl, hd, b, t, rfl, rfl, ht⟩
    exact ⟨l, d, t, by simpa using h0, hl, hd, ht⟩
  · rintro ⟨l, d, t, h0, hl, hd, ht⟩
    exact ⟨l, _, h0, hl, ['@'], _, rfl, rfl, d, _, rfl, hd, ['.'], t, rfl, rfl, ht⟩

theorem intercalate_cons_cons (sep x y : List Char) (ys : List (List Char)) :
    List.intercalate sep (x :: y :: ys) = x ++ (sep ++ List.intercalate sep (y :: ys)) := by
  simp [List.intercalate, List.intersperse]

theorem intercalate_singleton (sep x : List Char) : List.intercalate sep [x] = x := by
  simp [List.intercalate, List.intersperse]

/-- A joined list of labels starts with its first label. -/
theorem intercalate_head (sep x : List Char) (xs : List (List Char)) :
    ∃ z, List.intercalate sep (x :: xs) = x ++ z := by
  cases xs with
  | nil => exact ⟨[], by simp [intercalate_singleton]⟩
  | cons y ys => exact ⟨_, intercalate_cons_cons sep x y ys⟩

/-- Labels joined by `.` consist of domain characters. -/
theorem intercalate_domainChars (labels : List (List Char))
    (h : ∀ lab ∈ labels, lab ≠ [] ∧ ∀ c ∈ lab, isLabelChar c) :
    ∀ c ∈ List.intercalate ['.'] labels, isDomainChar c := by
  induction labels with
  | nil => intro c hc; simp [List.intercalate, List.intersperse] at hc
  | cons x xs ih =>
    cases xs with
    | nil =>
      intro c hc
      rw [intercalate_singleton] at hc
      exact Or.inl ((h x (List.mem_cons_self x [])).2 c hc)
    | cons y ys =>
      intro c hc
      rw [intercalate_cons_cons] at hc
      rcases List.mem_append.1 hc with hc | hc
      · exact Or.inl ((h x (List.mem_cons_self x _)).2 c hc)
      · rcases List.mem_append.1 hc with hc | hc
        · exact Or.inr (List.mem_singleton.1 hc)
        · exact ih (fun lab hl => h lab (List.mem_cons_of_mem x hl)) c hc

theorem spec_imp_shape (text : List Char) (h : SpecPattern text) : AcceptedShape text := by
  obtain ⟨l, labels, tld, h0, hl, ⟨hne, hlab⟩, ht⟩ := h
  refine ⟨l, List.intercalate ['.'] labels, tld, h0, hl, ⟨?_, intercalate_domainChars labels hlab⟩,
    ht⟩
  cases labels with
  | nil => exact absurd rfl hne
  | cons x xs =>
    obtain ⟨z, hz⟩ := intercalate_head ['.'] x xs
    rw [hz]
    have hx := (hlab x (List.mem_cons_self x xs)).1
    cases x with
    | nil => exact absurd rfl hx
    | cons c x => simp

theorem not_at_local (c : Char) (h : isLocalChar c) : c ≠ '@' := by
  rintro rfl; revert h; decide

theorem not_at_domain (c : Char) (h : isDomainChar c) : c ≠ '@' := by
  rintro rfl; revert h; decide

theorem not_at_letter (c : Char) (h : isLetter c) : c ≠ '@' := by
  rintro rfl; revert h; decide

theorem not_dot_letter (c : Char) (h : isLetter c) : c ≠ '.' := by
  rintro rfl; revert h; decide

theorem not_dot_label (c : Char) (h : isLabelChar c) : c ≠ '.' := by
  rintro rfl; revert h; decide

/-- In an accepted text the `@` of the pattern is the only one. -/
theorem shape_no_at {l d t : List Char} (hl : ∀ c ∈ l, isLocalChar c)
    (hd : ∀ c ∈ d, isDomainChar c) (ht : ∀ c ∈ t, isLetter c) :
    '@' ∉ l ∧ '@' ∉ d ++ '.' :: t := by
  refine ⟨fun h => not_at_local _ (hl _ h) rfl, fun h => ?_⟩
  rcases List.mem_append.1 h with h | h
  · exact not_at_domain _ (hd _ h) rfl
  · rcases List.mem_cons.1 h with h | h
    · revert h; decide
    · exact not_at_letter _ (ht _ h) rfl

theorem shape_count_at (text : List Char) (h : AcceptedShape text) : text.count '@' = 1 := by
  obtain ⟨l, d, t, rfl, ⟨_, hl⟩, ⟨_, hd⟩, ⟨_, ht⟩⟩ := h
  obtain ⟨h1, h2⟩ := shape_no_at hl hd ht
  rw [List.count_append, List.count_cons_self, List.count_eq_zero_of_not_mem h1,
    List.count_eq_zero_of_not_mem h2]

/-- Two ways of cutting a text at the first occurrence of a character agree. -/
theorem first_split {a : Char} : ∀ {x₁ x₂ z₁ z₂ : List Char}, a ∉ x₁ → a ∉ x₂ →
    x₁ ++ a :: z₁ = x₂ ++ a :: z₂ → x₁ = x₂ ∧ z₁ = z₂
  | [], [], _, _, _, _, h => ⟨rfl, by simpa using h⟩
  | [], b :: x₂, _, _, _, h2, h => by
    simp only [List.nil_append, List.cons_append, List.cons.injEq] at h
    exact absurd (List.mem_cons.2 (Or.inl h.1)) h2
  | b :: x₁, [], _, _, h1, _, h => by
    simp only [List.nil_append, List.cons_append, List.cons.injEq] at h
    exact absurd (List.mem_cons.2 (Or.inl h.1.symm)) h1
  | b :: x₁, c :: x₂, _, _, h1, h2, h => by
    simp only [List.cons_append, List.cons.injEq] at h
    obtain ⟨e1, e2⟩ := first_split (fun m => h1 (List.mem_cons_of_mem b m))
      (fun m => h2 (List.mem_cons_of_mem c m)) h.2
    exact ⟨by rw [h.1, e1], e2⟩

/-- The text `a@b..com` is not of the form the specification describes: its
domain has an empty label. -/
theorem double_dot_not_spec : ¬ SpecPattern "a@b..com".data := by
  rintro ⟨l, labels, tld, h0, _, ⟨hne, hlab⟩, ⟨_, ht⟩⟩
  have e : "a@b..com".data = ['a'] ++ '@' :: (['b'] ++ '.' :: ['.', 'c', 'o', 'm']) := rfl
  rw [e] at h0
  obtain ⟨_, _, h1⟩ :=
    (List.append_cons_inj_of_not_mem (by decide) (by decide)).1 h0
  cases labels with
  | nil => exact hne rfl
  | cons x xs =>
    have hx := hlab x (List.mem_cons_self x xs)
    have hxdot : '.' ∉ x := fun hm => not_dot_label _ (hx.2 _ hm) rfl
    cases xs with
    | nil =>
      rw [intercalate_singleton] at h1
      obtain ⟨_, h2⟩ := first_split (by decide) hxdot h1
      have : '.' ∈ tld := by rw [← h2]; decide
      exact not_dot_letter _ (ht _ this) rfl
    | cons y ys =>
      have hy := hlab y (List.mem_cons_of_mem x (List.mem_cons_self y ys))
      obtain ⟨z, hz⟩ := intercalate_head ['.'] y ys
      rw [intercalate_cons_cons, hz] at h1
      simp only [List.append_assoc, List.singleton_append] at h1
      have h3 : ['b'] ++ '.' :: ['.', 'c', 'o', 'm'] = x ++ '.' :: (y ++ (z ++ '.' :: tld)) := by
        simpa using h1
      obtain ⟨_, h2⟩ := first_split (by decide) hxdot h3
      cases y with
      | nil => exact hy.1 rfl
      | cons c y =>
        simp only [List.cons_append, List.cons.injEq] at h2
        exact not_dot_label c (hy.2 c (List.mem_cons_self c y)) h2.1.symm

/-- An iteration on a record whose `email` is a string, unfolded. -/
theorem iteration_of_email (unmarshal : Unmarshal) (st : State) (msg : Message)
    (wErr dErr : Option Error) (email : String) (hdec : leadEmail unmarshal msg = some email) :
    iteration unmarshal st ⟨.ok msg, wErr, dErr⟩ =
      if Email email then
        match wErr with
        | some err =>
          .running { st with
            writes := st.writes ++ [(.verified, msg)]
            log := st.log ++ [.writeError err] }
        | none =>
          .running { st with
            writes := st.writes ++ [(.verified, msg)]
            verifiedTopic := st.verifiedTopic ++ [msg]
            verifiedCounter := st.verifiedCounter + 1
            log := st.log ++ [.traceVerified (decodeLead unmarshal msg.Value)
              (correlationIdOf msg.Headers)] }
      else
        match dErr with
        | some err =>
          .running { st with
            invalidCounter := st.invalidCounter + 1
            writes := st.writes ++ [(.dlq, msg)]
            log := st.log ++ [.traceInvalid (decodeLead unmarshal msg.Value)
              (correlationIdOf msg.Headers), .dlqError err] }
        | none =>
          .running { st with
            invalidCounter := st.invalidCounter + 1
            writes := st.writes ++ [(.dlq, msg)]
            dlqTopic := st.dlqTopic ++ [msg]
            log := st.log ++ [.traceInvalid (decodeLead unmarshal msg.Value)
              (correlationIdOf msg.Headers)] } := by
  unfold leadEmail at hdec
  simp only [iteration, hdec]

/-- An iteration on a record whose `email` is missing or not a string. -/
theorem iteration_of_no_email (unmarshal : Unmarshal) (st : State) (msg : Message)
    (wErr dErr : Option Error) (hdec : leadEmail unmarshal msg = none) :
    iteration unmarshal st ⟨.ok msg, wErr, dErr⟩ = .panicked st := by
  unfold leadEmail at hdec
  simp only [iteration, hdec]

/-- The changes an iteration makes do not depend on the state it starts from. -/
theorem iteration_extend (unmarshal : Unmarshal) (env : Env) :
    ∃ d : State, (∀ st, (iteration unmarshal st env).state = st.extend d) ∧
      (∀ st st2, (iteration unmarshal st env).isPanic = (iteration unmarshal st2 env).isPanic) := by
  obtain ⟨recv, wErr, dErr⟩ := env
  cases recv with
  | error err =>
    exact ⟨{ State.init with log := [.readError err] },
      fun st => by simp [iteration, Outcome.state, State.extend, State.init],
      fun st st2 => by simp [iteration, Outcome.isPanic]⟩
  | ok msg =>
    cases hdec : leadEmail unmarshal msg with
    | none =>
      exact ⟨State.init,
        fun st => by
          simp [iteration_of_no_email _ _ _ _ _ hdec, Outcome.state, State.extend, State.init],
        fun st st2 => by simp [iteration_of_no_email _ _ _ _ _ hdec, Outcome.isPanic]⟩
    | some email =>
      by_cases hv : Email email = true
      · cases wErr with
        | some err =>
          exact ⟨{ State.init with writes := [(.verified, msg)], log := [.writeError err] },
            fun st => by
              simp [iteration_of_email _ _ _ _ _ _ hdec, hv, Outcome.state, State.extend,
                State.init],
            fun st st2 => by simp [iteration_of_email _ _ _ _ _ _ hdec, hv, Outcome.isPanic]⟩
        | none =>
          exact ⟨{ State.init with
              writes := [(.verified, msg)], verifiedTopic := [msg], verifiedCounter := 1,
              log := [.traceVerified (decodeLead unmarshal msg.Value)
                (correlationIdOf msg.Headers)] },
            fun st => by
              simp [iteration_of_email _ _ _ _ _ _ hdec, hv, Outcome.state, State.extend,
                State.init],
            fun st st2 => by simp [iteration_of_email _ _ _ _ _ _ hdec, hv, Outcome.isPanic]⟩
      · cases dErr with
        | some err =>
          exact ⟨{ State.init with
              invalidCounter := 1, writes := [(.dlq, msg)],
              log := [.traceInvalid (decodeLead unmarshal msg.Value)
                (correlationIdOf msg.Headers), .dlqError err] },
            fun st => by
              simp [iteration_of_email _ _ _ _ _ _ hdec, hv, Outcome.state, State.extend,
                State.init],
            fun st st2 => by simp [iteration_of_email _ _ _ _ _ _ hdec, hv, Outcome.isPanic]⟩
        | none =>
          exact ⟨{ State.init with
              invalidCounter := 1, writes := [(.dlq, msg)], dlqTopic := [msg],
              log := [.traceInvalid (decodeLead unmarshal msg.Value)
                (correlationIdOf msg.Headers)] },
            fun st => by
              simp [iteration_of_email _ _ _ _ _ _ hdec, hv, Outcome.state, State.extend,
                State.init],
            fun st st2 => by simp [iteration_of_email _ _ _ _ _ _ hdec, hv, Outcome.isPanic]⟩

/-- A run in which every record has a string `email` and every send succeeds. -/
theorem run_allOk (unmarshal : Unmarshal) (msgs : List Message) :
    ∀ st : State, (∀ m ∈ msgs, ∃ e, leadEmail unmarshal m = some e) →
      ∃ st1, run unmarshal st (msgs.map Env.allOk) = .running st1 ∧
        st1.verifiedTopic = st.verifiedTopic ++ msgs.filter (routesVerified unmarshal) ∧
        st1.dlqTopic = st.dlqTopic ++ msgs.filter (fun m => !routesVerified unmarshal m) ∧
        st1.verifiedCounter =
          st.verifiedCounter + (msgs.filter (routesVerified unmarshal)).length ∧
        st1.invalidCounter =
          st.invalidCounter + (msgs.filter (fun m => !routesVerified unmarshal m)).length := by
  induction msgs with
  | nil => intro st _; exact ⟨st, rfl, by simp, by simp, by simp, by simp⟩
  | cons m rest ih =>
    intro st hdec
    obtain ⟨e, he⟩ := hdec m (List.mem_cons_self m rest)
    have hrest : ∀ x ∈ rest, ∃ e, leadEmail unmarshal x = some e :=
      fun x hx => hdec x (List.mem_cons_of_mem m hx)
    have hit := iteration_of_email unmarshal st m none none e he
    have hr : routesVerified unmarshal m = Email e := by simp [routesVerified, he]
    by_cases hv : Email e = true
    · rw [if_pos hv] at hit
      obtain ⟨st1, h1, h2, h3, h4, h5⟩ := ih _ hrest
      refine ⟨st1, ?_, ?_, ?_, ?_, ?_⟩
      · simp only [List.map_cons, run, Env.allOk, hit]
        exact h1
      · rw [h2]; simp [hr, hv]
      · rw [h3]; simp [hr, hv]
      · rw [h4]; simp [hr, hv]; omega
      · rw [h5]; simp [hr, hv]
    · rw [if_neg hv] at hit
      have hv2 : Email e = false := by simpa using hv
      obtain ⟨st1, h1, h2, h3, h4, h5⟩ := ih _ hrest
      refine ⟨st1, ?_, ?_, ?_, ?_, ?_⟩
      · simp only [List.map_cons, run, Env.allOk, hit]
        exact h1
      · rw [h2]; simp [hr, hv2]
      · rw [h3]; simp [hr, hv2]
      · rw [h4]; simp [hr, hv2]
      · rw [h5]; simp [hr, hv2]; omega

/-- The two filters split a list. -/
theorem filter_lengths (p : Message → Bool) (msgs : List Message) :
    (msgs.filter p).length + (msgs.filter fun m => !p m).length = msgs.length := by
  induction msgs with
  | nil => rfl
  | cons m rest ih =>
    by_cases h : p m = true
    · simp [h]; omega
    · have h2 : p m = false := by simpa using h
      simp [h2]; omega

/-! ## Properties of the validator and of the loop -/

/-- C1: for a received record whose payload decodes to a lead with a string
`email`, when the send chosen for it succeeds, the iteration adds one to
`verified_total` and leaves `invalid_total` alone if `validate.Email` holds, and
adds one to `invalid_total` and leaves `verified_total` alone if it does not. -/
theorem counters_on_successful_send (unmarshal : Unmarshal) (st : State) (msg : Message)
    (wErr dErr : Option Error) (email : String)
    (hdec : leadEmail unmarshal msg = some email)
    (hsend : if Email email = true then wErr = none else dErr = none) :
    ∃ st1, iteration unmarshal st ⟨.ok msg, wErr, dErr⟩ = .running st1 ∧
      (Email email = true →
        st1.verifiedCounter = st.verifiedCounter + 1 ∧ st1.invalidCounter = st.invalidCounter) ∧
      (Email email = false →
        st1.invalidCounter = st.invalidCounter + 1 ∧
          st1.verifiedCounter = st.verifiedCounter) := by
  rw [iteration_of_email unmarshal st msg wErr dErr email hdec]
  by_cases hv : Email email = true
  · rw [if_pos hv] at hsend ⊢
    subst hsend
    exact ⟨_, rfl, fun _ => ⟨rfl, rfl⟩, fun h => by rw [hv] at h; cases h⟩
  · rw [if_neg hv] at hsend ⊢
    subst hsend
    exact ⟨_, rfl, fun h => absurd h hv, fun _ => ⟨rfl, rfl⟩⟩

/-- Scenarios 1 and 2: from the initial state, the payload with email `a@b.com`
raises `verified_total` to 1 and the one with `not-an-email` raises
`invalid_total` to 1. -/
theorem counters_on_successful_send_witness :
    (∃ st1, iteration sampleUnmarshal State.init
        (Env.allOk (Message.ofPayload "\x7b\"email\":\"a@b.com\"\x7d" [])) = .running st1 ∧
      st1.verifiedCounter = 1 ∧ st1.invalidCounter = 0) ∧
    (∃ st1, iteration sampleUnmarshal State.init
        (Env.allOk (Message.ofPayload "\x7b\"email\":\"not-an-email\"\x7d" [])) = .running st1 ∧
      st1.verifiedCounter = 0 ∧ st1.invalidCounter = 1) := by
  constructor
  · obtain ⟨st1, h1, h2, _⟩ := counters_on_successful_send sampleUnmarshal State.init
      (Message.ofPayload "\x7b\"email\":\"a@b.com\"\x7d" []) none none "a@b.com"
      (by decide) (by decide)
    exact ⟨st1, h1, h2 (by decide)⟩
  · obtain ⟨st1, h1, _, h2⟩ := counters_on_successful_send sampleUnmarshal State.init
      (Message.ofPayload "\x7b\"email\":\"not-an-email\"\x7d" []) none none "not-an-email"
      (by decide) (by decide)
    obtain ⟨h3, h4⟩ := h2 (by decide)
    exact ⟨st1, h1, h4, h3⟩

/-- C2, as stated, fails: the record `not-an-email` is invalid, its send to
the dead-letter writer fails, and `invalid_total` has still gone from 0 to 1. -/
theorem failed_dlq_send_counterexample :
    leadEmail sampleUnmarshal (Message.ofPayload "\x7b\"email\":\"not-an-email\"\x7d" []) =
        some "not-an-email" ∧
      Email "not-an-email" = false ∧
      (iteration sampleUnmarshal State.init
        ⟨.ok (Message.ofPayload "\x7b\"email\":\"not-an-email\"\x7d" []), none,
          some "broker down"⟩).state.invalidCounter ≠ State.init.invalidCounter := by
  decide

/-- C2, amended: for a received record whose payload decodes to a lead with
a string `email`, when the send attempted for it fails, no record reaches
either destination and `verified_total` is unchanged; `invalid_total` is
unchanged when the email is valid and is one higher when it is invalid. -/
theorem failed_send_effects (unmarshal : Unmarshal) (st : State) (msg : Message)
    (wErr dErr : Option Error) (email : String) (err : Error)
    (hdec : leadEmail unmarshal msg = some email)
    (hfail : if Email email = true then wErr = some err else dErr = some err) :
    ∃ st1, iteration unmarshal st ⟨.ok msg, wErr, dErr⟩ = .running st1 ∧
      st1.verifiedTopic = st.verifiedTopic ∧ st1.dlqTopic = st.dlqTopic ∧
      st1.verifiedCounter = st.verifiedCounter ∧
      (Email email = true → st1.invalidCounter = st.invalidCounter) ∧
      (Email email = false → st1.invalidCounter = st.invalidCounter + 1) := by
  rw [iteration_of_email unmarshal st msg wErr dErr email hdec]
  by_cases hv : Email email = true
  · rw [if_pos hv] at hfail ⊢
    subst hfail
    exact ⟨_, rfl, rfl, rfl, rfl, fun _ => rfl, fun h => by rw [hv] at h; cases h⟩
  · rw [if_neg hv] at hfail ⊢
    subst hfail
    exact ⟨_, rfl, rfl, rfl, rfl, fun h => absurd h hv, fun _ => rfl⟩

/-- A failing verified send for `x@y.co` and a failing dead-letter send for
`not-an-email`, from the initial state. -/
theorem failed_send_effects_witness :
    (∃ st1, iteration sampleUnmarshal State.init
        ⟨.ok (Message.ofPayload "\x7b\"email\":\"x@y.co\"\x7d" []), some "timeout", none⟩ =
          .running st1 ∧
      st1.verifiedTopic = [] ∧ st1.dlqTopic = [] ∧ st1.verifiedCounter = 0 ∧
        st1.invalidCounter = 0) ∧
    (∃ st1, iteration sampleUnmarshal State.init
        ⟨.ok (Message.ofPayload "\x7b\"email\":\"not-an-email\"\x7d" []), none,
          some "timeout"⟩ = .running st1 ∧
      st1.verifiedTopic = [] ∧ st1.dlqTopic = [] ∧ st1.verifiedCounter = 0 ∧
        st1.invalidCounter = 1) := by
  constructor
  · obtain ⟨st1, h1, h2, h3, h4, h5, _⟩ := failed_send_effects sampleUnmarshal State.init
      (Message.ofPayload "\x7b\"email\":\"x@y.co\"\x7d" []) (some "timeout") none "x@y.co"
      "timeout" (by decide) (by decide)
    exact ⟨st1, h1, h2, h3, h4, h5 (by decide)⟩
  · obtain ⟨st1, h1, h2, h3, h4, _, h5⟩ := failed_send_effects sampleUnmarshal State.init
      (Message.ofPayload "\x7b\"email\":\"not-an-email\"\x7d" []) none (some "timeout")
      "not-an-email" "timeout" (by decide) (by decide)
    exact ⟨st1, h1, h2, h3, h4, h5 (by decide)⟩

/-- C3: every text of the form `local@l1.l2...ln.tld` (n ≥ 1, non-empty
labels of label characters, a top-level label of two or more letters) is accepted by
`validate.Email`. -/
theorem email_accepts_spec_pattern (s : String) (h : SpecPattern s.data) : Email s = true :=
  (email_iff_shape s).2 (spec_imp_shape s.data h)

/-- The texts `a@b.com` and `x@y.co` have the described form and are accepted. -/
theorem email_accepts_spec_pattern_witness :
    (SpecPattern "a@b.com".data ∧ Email "a@b.com" = true) ∧
      (SpecPattern "x@y.co".data ∧ Email "x@y.co" = true) :=
  have h1 : SpecPattern "a@b.com".data :=
    ⟨['a'], [['b']], ['c', 'o', 'm'], rfl, by decide, by decide, by decide⟩
  have h2 : SpecPattern "x@y.co".data :=
    ⟨['x'], [['y']], ['c', 'o'], rfl, by decide, by decide, by decide⟩
  ⟨⟨h1, email_accepts_spec_pattern _ h1⟩, ⟨h2, email_accepts_spec_pattern _ h2⟩⟩

/-- C4, as stated, fails: `a@b..com` is accepted by `validate.Email` although
its domain has an empty label, so it is not of the form
`local-part @ domain-labels . tld`. -/
theorem email_iff_spec_pattern_counterexample :
    ¬ (Email "a@b..com" = true ↔ SpecPattern "a@b..com".data) :=
  fun h => double_dot_not_spec (h.1 (by decide))

/-- C4, amended: `validate.Email` accepts exactly the texts
`local @ domain . tld` where `local` is one or more characters from letters,
digits and `. _ % + -`, `domain` is one or more characters from letters,
digits, `-` and `.`, and `tld` is two or more letters; every accepted text
contains exactly one `@`. -/
theorem email_iff_accepted_shape (s : String) :
    (Email s = true ↔ AcceptedShape s.data) ∧ (Email s = true → s.data.count '@' = 1) :=
  ⟨email_iff_shape s, fun h => shape_count_at s.data ((email_iff_shape s).1 h)⟩

/-- C5: a text without `@`, or with an `@` that has no `.` after it, or whose
last `.` is followed by exactly one character, is rejected by
`validate.Email`. -/
theorem email_rejects (s : String)
    (h : '@' ∉ s.data ∨
      (∃ pre post, s.data = pre ++ '@' :: post ∧ '.' ∉ post) ∨
      (∃ pre c, s.data = pre ++ ['.', c])) :
    Email s = false := by
  rw [Bool.eq_false_iff]
  intro hE
  obtain ⟨l, d, t, h0, ⟨_, hl⟩, ⟨_, hd⟩, ⟨ht2, ht⟩⟩ := (email_iff_shape s).1 hE
  rcases h with h | ⟨pre, post, h1, h2⟩ | ⟨pre, c, h1⟩
  · apply h; rw [h0]; simp
  · obtain ⟨hn1, hn2⟩ := shape_no_at hl hd ht
    rw [h0] at h1
    obtain ⟨_, _, h3⟩ := (List.append_cons_inj_of_not_mem hn1 hn2).1 h1
    apply h2; rw [← h3]; simp
  · rw [h0] at h1
    have h3 := congrArg List.reverse h1
    simp only [List.reverse_append, List.reverse_cons, List.append_assoc, List.reverse_nil,
      List.nil_append, List.singleton_append, List.cons_append] at h3
    have hr : ∀ c ∈ t.reverse, isLetter c := fun c hc => ht c (List.mem_reverse.1 hc)
    have hlen : 2 ≤ t.reverse.length := by simpa using ht2
    cases hrev : t.reverse with
    | nil => rw [hrev] at hlen; simp at hlen
    | cons a r =>
      cases r with
      | nil => rw [hrev] at hlen; simp at hlen
      | cons b r =>
        rw [hrev] at h3 hr
        simp only [List.cons_append, List.cons.injEq] at h3
        have hb : isLetter b := hr b (by simp)
        exact not_dot_letter b hb h3.2.1

/-- The texts `not-an-email`, `a@b` and `a@b.c` are rejected. -/
theorem email_rejects_witness :
    Email "not-an-email" = false ∧ Email "a@b" = false ∧ Email "a@b.c" = false :=
  ⟨email_rejects "not-an-email" (Or.inl (by decide)),
   email_rejects "a@b" (Or.inr (Or.inl ⟨['a'], ['b'], rfl, by decide⟩)),
   email_rejects "a@b.c" (Or.inr (Or.inr ⟨['a', '@', 'b'], 'c', rfl⟩))⟩

/-- C6: whatever the iteration hands to the verified writer or to the
dead-letter writer, and whatever either of them accepts, is the record received
in that iteration, field for field; an iteration that receives nothing hands
over nothing. -/
theorem routing_preserves_record (unmarshal : Unmarshal) (st : State) (env : Env) :
    ∃ (calls : List (Dest × Message)) (v d : List Message),
      (iteration unmarshal st env).state.writes = st.writes ++ calls ∧
      (iteration unmarshal st env).state.verifiedTopic = st.verifiedTopic ++ v ∧
      (iteration unmarshal st env).state.dlqTopic = st.dlqTopic ++ d ∧
      (∀ w ∈ calls, env.recv = .ok w.2) ∧ (∀ m ∈ v, env.recv = .ok m) ∧
      (∀ m ∈ d, env.recv = .ok m) := by
  obtain ⟨recv, wErr, dErr⟩ := env
  cases recv with
  | error err => exact ⟨[], [], [], by simp [iteration, Outcome.state]⟩
  | ok msg =>
    cases hdec : leadEmail unmarshal msg with
    | none =>
      exact ⟨[], [], [], by simp [iteration_of_no_email _ _ _ _ _ hdec, Outcome.state]⟩
    | some email =>
      rw [iteration_of_email unmarshal st msg wErr dErr email hdec]
      by_cases hv : Email email = true
      · cases wErr with
        | some err => exact ⟨[(.verified, msg)], [], [], by simp [hv, Outcome.state]⟩
        | none => exact ⟨[(.verified, msg)], [msg], [], by simp [hv, Outcome.state]⟩
      · cases dErr with
        | some err => exact ⟨[(.dlq, msg)], [], [], by simp [hv, Outcome.state]⟩
        | none => exact ⟨[(.dlq, msg)], [], [msg], by simp [hv, Outcome.state]⟩

/-- C7, as stated, fails: the header list holds a header with key
`correlationId` and value `abc123`, behind another header, and the extracted id
is empty. -/
theorem correlationId_second_header_counterexample :
    (⟨"correlationId", asciiBytes "abc123"⟩ : Header) ∈
        [⟨"traceparent", asciiBytes "00"⟩, ⟨"correlationId", asciiBytes "abc123"⟩] ∧
      correlationIdOf
        [⟨"traceparent", asciiBytes "00"⟩, ⟨"correlationId", asciiBytes "abc123"⟩] = [] ∧
      correlationIdOf
        [⟨"traceparent", asciiBytes "00"⟩, ⟨"correlationId", asciiBytes "abc123"⟩] ≠
          asciiBytes "abc123" := by
  decide

/-- C7, amended: the extracted id is the value of the first header when that
header's key is `correlationId`, and empty when the list is empty or starts
with another key, so in particular when no header has that key; the id written
on a trace line of an iteration is the one extracted from the headers of the
received record, whatever the payload and the outcome of validation. -/
theorem correlationId_first_header (headers : List Header) :
    (∀ h rest, headers = h :: rest → h.Key = "correlationId" →
        correlationIdOf headers = h.Value) ∧
      (headers = [] → correlationIdOf headers = []) ∧
      (∀ h rest, headers = h :: rest → h.Key ≠ "correlationId" →
        correlationIdOf headers = []) ∧
      ((∀ h ∈ headers, h.Key ≠ "correlationId") → correlationIdOf headers = []) ∧
      (∀ (unmarshal : Unmarshal) (st : State) (msg : Message) (wErr dErr : Option Error),
        msg.Headers = headers →
        ∃ lines, (iteration unmarshal st ⟨.ok msg, wErr, dErr⟩).state.log = st.log ++ lines ∧
          ∀ line ∈ lines, ∀ cid, line.correlationId? = some cid →
            cid = correlationIdOf headers) := by
  refine ⟨?_, ?_, ?_, ?_, ?_⟩
  · rintro h rest rfl hk
    simp [correlationIdOf, hk]
  · rintro rfl
    rfl
  · rintro h rest rfl hk
    simp [correlationIdOf, hk]
  · intro hall
    cases headers with
    | nil => rfl
    | cons h rest => simp [correlationIdOf, hall h (List.mem_cons_self h rest)]
  · rintro unmarshal st msg wErr dErr rfl
    cases hdec : leadEmail unmarshal msg with
    | none =>
      exact ⟨[], by simp [iteration_of_no_email _ _ _ _ _ hdec, Outcome.state]⟩
    | some email =>
      rw [iteration_of_email unmarshal st msg wErr dErr email hdec]
      by_cases hv : Email email = true
      · cases wErr with
        | some err =>
          exact ⟨[.writeError err], by simp [hv, Outcome.state, LogLine.correlationId?]⟩
        | none =>
          refine ⟨[.traceVerified (decodeLead unmarshal msg.Value)
            (correlationIdOf msg.Headers)], by simp [hv, Outcome.state], ?_⟩
          intro line hl cid hc
          rw [List.mem_singleton.1 hl] at hc
          simpa [LogLine.correlationId?] using hc.symm
      · cases dErr with
        | some err =>
          refine ⟨[.traceInvalid (decodeLead unmarshal msg.Value)
            (correlationIdOf msg.Headers), .dlqError err], by simp [hv, Outcome.state], ?_⟩
          intro line hl cid hc
          simp only [List.mem_cons, List.mem_singleton, List.not_mem_nil, or_false] at hl
          rcases hl with rfl | rfl
          · simpa [LogLine.correlationId?] using hc.symm
          · simp [LogLine.correlationId?] at hc
        | none =>
          refine ⟨[.traceInvalid (decodeLead unmarshal msg.Value)
            (correlationIdOf msg.Headers)], by simp [hv, Outcome.state], ?_⟩
          intro line hl cid hc
          rw [List.mem_singleton.1 hl] at hc
          simpa [LogLine.correlationId?] using hc.symm

/-- No headers give the empty id; a first header `correlationId=abc123` gives
`abc123`. -/
theorem correlationId_first_header_witness :
    correlationIdOf [] = [] ∧
      correlationIdOf [⟨"correlationId", asciiBytes "abc123"⟩] = asciiBytes "abc123" :=
  ⟨(correlationId_first_header []).2.1 rfl,
   (correlationId_first_header [⟨"correlationId", asciiBytes "abc123"⟩]).1 _ _ rfl rfl⟩

/-- C9: for a record with a valid string `email` whose send to the verified
writer fails, the iteration only logs the error: nothing is added to the
verified topic, the dead-letter writer is not called, both counters keep their
value; the loop goes on with the following records, and the next iteration
makes the same changes and ends the same way as it would have after a
successful send. -/
theorem failed_verified_send_drops_record (unmarshal : Unmarshal) (st : State) (msg : Message)
    (err : Error) (dErr : Option Error) (email : String)
    (hdec : leadEmail unmarshal msg = some email) (hvalid : Email email = true) :
    ∃ st1, iteration unmarshal st ⟨.ok msg, some err, dErr⟩ = .running st1 ∧
      st1.verifiedTopic = st.verifiedTopic ∧ st1.dlqTopic = st.dlqTopic ∧
      st1.writes = st.writes ++ [(.verified, msg)] ∧
      st1.verifiedCounter = st.verifiedCounter ∧ st1.invalidCounter = st.invalidCounter ∧
      st1.log = st.log ++ [.writeError err] ∧
      (∀ rest, run unmarshal st (⟨.ok msg, some err, dErr⟩ :: rest) = run unmarshal st1 rest) ∧
      (∀ next : Env, ∃ d : State,
        (iteration unmarshal st1 next).state = st1.extend d ∧
        (iteration unmarshal (iteration unmarshal st ⟨.ok msg, none, dErr⟩).state next).state =
          (iteration unmarshal st ⟨.ok msg, none, dErr⟩).state.extend d ∧
        (iteration unmarshal st1 next).isPanic =
          (iteration unmarshal (iteration unmarshal st ⟨.ok msg, none, dErr⟩).state
            next).isPanic) := by
  have hit := iteration_of_email unmarshal st msg (some err) dErr email hdec
  rw [if_pos hvalid] at hit
  refine ⟨_, hit, rfl, rfl, rfl, rfl, rfl, rfl, fun rest => by simp [run, hit], fun next => ?_⟩
  obtain ⟨d, h1, h2⟩ := iteration_extend unmarshal next
  exact ⟨d, h1 _, h1 _, h2 _ _⟩

/-- Scenario 4: the send of `a@b.com` fails, nothing is delivered or counted, and
the next record, `x@y.co`, is delivered to the verified topic. -/
theorem failed_verified_send_drops_record_witness :
    ∃ st1, iteration sampleUnmarshal State.init
        ⟨.ok (Message.ofPayload "\x7b\"email\":\"a@b.com\"\x7d" []), some "timeout", none⟩ =
          .running st1 ∧
      st1.verifiedTopic = [] ∧ st1.dlqTopic = [] ∧ st1.verifiedCounter = 0 ∧
      st1.invalidCounter = 0 ∧
      (run sampleUnmarshal State.init
        [⟨.ok (Message.ofPayload "\x7b\"email\":\"a@b.com\"\x7d" []), some "timeout", none⟩,
          Env.allOk (Message.ofPayload "\x7b\"email\":\"x@y.co\"\x7d" [])]).state.verifiedTopic =
        [Message.ofPayload "\x7b\"email\":\"x@y.co\"\x7d" []] := by
  obtain ⟨st1, h1, h2, h3, _, h5, h6, _, h8, _⟩ :=
    failed_verified_send_drops_record sampleUnmarshal State.init
      (Message.ofPayload "\x7b\"email\":\"a@b.com\"\x7d" []) "timeout" none "a@b.com"
      (by decide) (by decide)
  exact ⟨st1, h1, h2, h3, h5, h6, by decide⟩

/-- C10: for records that all decode to a lead with a string `email`, with
every send succeeding, the loop appends to the verified topic the records whose
email passes `validate.Email`, in arrival order, appends to the dead-letter
topic the others, in arrival order, and raises `verified_total` and
`invalid_total` by the lengths of these two lists, which add up to the number
of records. -/
theorem run_routes_in_arrival_order (unmarshal : Unmarshal) (st : State)
    (msgs : List Message) (hdec : ∀ m ∈ msgs, ∃ e, leadEmail unmarshal m = some e) :
    ∃ st1, run unmarshal st (msgs.map Env.allOk) = .running st1 ∧
      st1.verifiedTopic = st.verifiedTopic ++ msgs.filter (routesVerified unmarshal) ∧
      st1.dlqTopic = st.dlqTopic ++ msgs.filter (fun m => !routesVerified unmarshal m) ∧
      st1.verifiedCounter =
        st.verifiedCounter + (msgs.filter (routesVerified unmarshal)).length ∧
      st1.invalidCounter =
        st.invalidCounter + (msgs.filter (fun m => !routesVerified unmarshal m)).length ∧
      (msgs.filter (routesVerified unmarshal)).length +
        (msgs.filter (fun m => !routesVerified unmarshal m)).length = msgs.length ∧
      (∀ m ∈ msgs, routesVerified unmarshal m = true ↔
        ∃ e, leadEmail unmarshal m = some e ∧ Email e = true) := by
  obtain ⟨st1, h1, h2, h3, h4, h5⟩ := run_allOk unmarshal msgs st hdec
  refine ⟨st1, h1, h2, h3, h4, h5, filter_lengths _ msgs, ?_⟩
  intro m _
  unfold routesVerified
  cases leadEmail unmarshal m with
  | none => simp
  | some e => simp

/-- Three records in a row: the first and third go to the verified topic, the
second to the dead-letter topic. -/
theorem run_routes_in_arrival_order_witness :
    ∃ st1, run sampleUnmarshal State.init
        ([Message.ofPayload "\x7b\"email\":\"a@b.com\"\x7d" [],
          Message.ofPayload "\x7b\"email\":\"not-an-email\"\x7d" [],
          Message.ofPayload "\x7b\"email\":\"x@y.co\"\x7d"
            [⟨"correlationId", asciiBytes "abc123"⟩]].map Env.allOk) = .running st1 ∧
      st1.verifiedTopic =
        [Message.ofPayload "\x7b\"email\":\"a@b.com\"\x7d" [],
          Message.ofPayload "\x7b\"email\":\"x@y.co\"\x7d"
            [⟨"correlationId", asciiBytes "abc123"⟩]] ∧
      st1.dlqTopic = [Message.ofPayload "\x7b\"email\":\"not-an-email\"\x7d" []] ∧
      st1.verifiedCounter = 2 ∧ st1.invalidCounter = 1 := by
  obtain ⟨st1, h1, h2, h3, h4, h5, _⟩ := run_routes_in_arrival_order sampleUnmarshal State.init
    [Message.ofPayload "\x7b\"email\":\"a@b.com\"\x7d" [],
      Message.ofPayload "\x7b\"email\":\"not-an-email\"\x7d" [],
      Message.ofPayload "\x7b\"email\":\"x@y.co\"\x7d" [⟨"correlationId", asciiBytes "abc123"⟩]]
    (by
      intro m hm
      simp only [List.mem_cons, List.mem_singleton, List.not_mem_nil, or_false] at hm
      rcases hm with rfl | rfl | rfl
      · exact ⟨"a@b.com", by decide⟩
      · exact ⟨"not-an-email", by decide⟩
      · exact ⟨"x@y.co", by decide⟩)
  refine ⟨st1, h1, ?_, ?_, ?_, ?_⟩
  · rw [h2]; decide
  · rw [h3]; decide
  · rw [h4]; decide
  · rw [h5]; decide

end Verifier
